import Mathlib

/-!
Verification of the record decoding and validation core of the
csv2json_stockitems_go repository (package stockdatalib and the
stockitems_csv_to_json driver).

Strings are modelled as `List Char` (Go strings are byte slices of the
field texts, all ASCII here).  Go `int64` arithmetic is modelled on `Int`
with explicit two's-complement wrapping where the source can overflow.
Fallible Go functions returning `(value, error)` pairs are modelled with
the `GoOut` sum, which also has a `panic` constructor for Go runtime
panics (out-of-range indexing).
-/

/-- `true` iff `c` is an ASCII decimal digit. -/
def isDigitChar (c : Char) : Bool := '0' ≤ c && c ≤ '9'

/-- Fuel-driven digit printer; `natToDigits` supplies enough fuel. -/
def natToDigitsAux (fuel : Nat) (n : Nat) : List Char :=
  match fuel with
  | 0 => []
  | fuel + 1 =>
    if n < 10 then [Nat.digitChar n]
    else natToDigitsAux fuel (n / 10) ++ [Nat.digitChar (n % 10)]

/-- Decimal digit characters of `n`, most significant first.
Models the output of Go `fmt` verb `%d` for a non-negative value. -/
def natToDigits (n : Nat) : List Char := natToDigitsAux (n + 1) n

theorem natToDigitsAux_congr : ∀ (n f f' : Nat), n < f → n < f' →
    natToDigitsAux f n = natToDigitsAux f' n := by
  intro n
  induction n using Nat.strong_induction_on with
  | _ n ih =>
    intro f f' h h'
    match f, f', h, h' with
    | a + 1, b + 1, _, _ =>
      simp only [natToDigitsAux]
      by_cases h10 : n < 10
      · simp [h10]
      · have hd : n / 10 < n := Nat.div_lt_self (by omega) (by omega)
        simp only [if_neg h10]
        rw [ih (n / 10) hd a b (by omega) (by omega)]

/-- Unfolding equation for `natToDigits`. -/
theorem natToDigits_eq (n : Nat) :
    natToDigits n =
      if n < 10 then [Nat.digitChar n]
      else natToDigits (n / 10) ++ [Nat.digitChar (n % 10)] := by
  by_cases h10 : n < 10
  · simp [natToDigits, natToDigitsAux, h10]
  · have hd : n / 10 < n := Nat.div_lt_self (by omega) (by omega)
    rw [if_neg h10]
    show (if n < 10 then [Nat.digitChar n]
      else natToDigitsAux n (n / 10) ++ [Nat.digitChar (n % 10)]) = _
    rw [if_neg h10,
      natToDigitsAux_congr (n / 10) n (n / 10 + 1) (by omega) (by omega)]
    rfl

/-- Go `fmt` verb `%d` applied to an `int64` value. -/
def intToChars (i : Int) : List Char :=
  if i < 0 then '-' :: natToDigits i.natAbs else natToDigits i.natAbs

/-- Numeric value of a decimal digit character, `none` for any other char. -/
def digitVal (c : Char) : Option Nat :=
  if isDigitChar c then some (c.toNat - 48) else none

/-- One step of Go `strconv.ParseInt` digit accumulation. -/
def pushDigit (acc : Option Nat) (c : Char) : Option Nat :=
  match acc with
  | none => none
  | some a =>
    match digitVal c with
    | none => none
    | some d => some (a * 10 + d)

/-- Accumulate decimal digits left to right; `none` once a non-digit is hit. -/
def digitsLoop (acc : Option Nat) : List Char → Option Nat
  | [] => acc
  | c :: r => digitsLoop (pushDigit acc c) r

/-- The all-digits value of `l` (`none` when `l` is empty or has a non-digit),
as accumulated by the digit loop inside Go `strconv.ParseInt`. -/
def parseDigits (l : List Char) : Option Nat :=
  if l.isEmpty then none else digitsLoop (some 0) l

/-- The `int64` range gate of Go `strconv.ParseInt(s, 10, 64)`: out-of-range
values produce `ErrRange`, which every caller in this code treats as an
error, so the model collapses it to `none`. -/
def int64Range (v : Int) : Option Int :=
  if -(2 ^ 63) ≤ v ∧ v ≤ 2 ^ 63 - 1 then some v else none

/-- Model of Go `strconv.ParseInt(s, 10, 64)`: optional single leading sign,
then one or more decimal digits, rejected when outside the `int64` range.
`none` stands for a non-nil `error` result (syntax or range). -/
def goParseInt64 (s : List Char) : Option Int :=
  match s with
  | [] => none
  | c :: rest =>
    if c = '-' then (parseDigits rest).bind (fun n => int64Range (-(n : Int)))
    else if c = '+' then (parseDigits rest).bind (fun n => int64Range ((n : Int)))
    else (parseDigits (c :: rest)).bind (fun n => int64Range ((n : Int)))

theorem digitsLoop_append (acc : Option Nat) (a b : List Char) :
    digitsLoop acc (a ++ b) = digitsLoop (digitsLoop acc a) b := by
  induction a generalizing acc with
  | nil => rfl
  | cons c r ih => simp [digitsLoop, ih]

theorem isDigitChar_digitChar (n : Nat) (h : n < 10) :
    isDigitChar (Nat.digitChar n) = true := by
  interval_cases n <;> decide

theorem digitVal_digitChar (n : Nat) (h : n < 10) :
    digitVal (Nat.digitChar n) = some n := by
  interval_cases n <;> decide

theorem natToDigits_ne_nil (n : Nat) : natToDigits n ≠ [] := by
  rw [natToDigits_eq]
  by_cases h10 : n < 10 <;> simp [h10]

theorem natToDigits_all_digits (n : Nat) :
    ∀ c ∈ natToDigits n, isDigitChar c = true := by
  induction n using Nat.strong_induction_on with
  | _ n ih =>
    rw [natToDigits_eq]
    by_cases h10 : n < 10
    · simp only [if_pos h10, List.mem_singleton]
      intro c hc; subst hc; exact isDigitChar_digitChar n h10
    · have hd : n / 10 < n := Nat.div_lt_self (by omega) (by omega)
      simp only [if_neg h10, List.mem_append, List.mem_singleton]
      intro c hc
      rcases hc with hc | hc
      · exact ih (n / 10) hd c hc
      · subst hc; exact isDigitChar_digitChar (n % 10) (Nat.mod_lt n (by omega))

theorem isDigitChar_ne_signs (c : Char) (h : isDigitChar c = true) :
    c ≠ '-' ∧ c ≠ '+' ∧ c ≠ '$' ∧ c ≠ '.' := by
  refine ⟨?_, ?_, ?_, ?_⟩ <;> (intro he; subst he; exact absurd h (by decide))

theorem digitsLoop_natToDigits (n : Nat) : ∀ (a : Nat),
    digitsLoop (some a) (natToDigits n) =
      some (a * 10 ^ (natToDigits n).length + n) := by
  induction n using Nat.strong_induction_on with
  | _ n ih =>
    intro a
    rw [natToDigits_eq]
    by_cases h10 : n < 10
    · simp only [if_pos h10, digitsLoop, pushDigit, digitVal_digitChar n h10]
      simp
    · have hd : n / 10 < n := Nat.div_lt_self (by omega) (by omega)
      simp only [if_neg h10, digitsLoop_append, ih (n / 10) hd a]
      have hm : n % 10 < 10 := Nat.mod_lt n (by omega)
      simp only [digitsLoop, pushDigit, digitVal_digitChar (n % 10) hm]
      have : (a * 10 ^ (natToDigits (n / 10)).length + n / 10) * 10 + n % 10 =
          a * 10 ^ ((natToDigits (n / 10)).length + 1) + n := by
        rw [pow_succ]
        have := Nat.div_add_mod n 10
        ring_nf
        omega
      simp [this]

theorem parseDigits_natToDigits (n : Nat) :
    parseDigits (natToDigits n) = some n := by
  have h1 := natToDigits_ne_nil n
  have h2 := digitsLoop_natToDigits n 0
  simp only [parseDigits, List.isEmpty_iff, h1, if_neg (h1 ∘ id)]
  simpa using h2

/-- `strconv.ParseInt` inverts decimal printing for in-range values. -/
theorem goParseInt64_natToDigits (n : Nat) (h : (n : Int) ≤ 2 ^ 63 - 1) :
    goParseInt64 (natToDigits n) = some (n : Int) := by
  obtain ⟨c, rest, hcr⟩ : ∃ c rest, natToDigits n = c :: rest := by
    cases hh : natToDigits n with
    | nil => exact absurd hh (natToDigits_ne_nil n)
    | cons c rest => exact ⟨c, rest, rfl⟩
  have hdig : isDigitChar c = true := by
    apply natToDigits_all_digits n; rw [hcr]; exact List.mem_cons_self c rest
  obtain ⟨hm, hp, -, -⟩ := isDigitChar_ne_signs c hdig
  have := parseDigits_natToDigits n
  rw [hcr] at this ⊢
  simp only [goParseInt64, if_neg hm, if_neg hp, this, Option.some_bind, int64Range]
  rw [if_pos ⟨by omega, by omega⟩]

/-- Model of Go `strings.Split(s, ".")`: the pieces of `s` between dots.
Always returns at least one piece (`strings.Split` never returns an empty
slice for a non-empty separator). -/
def splitOnDot : List Char → List (List Char)
  | [] => [[]]
  | c :: rest =>
    if c = '.' then [] :: splitOnDot rest
    else
      match splitOnDot rest with
      | [] => [[c]]
      | p :: ps => (c :: p) :: ps

theorem splitOnDot_ne_nil (l : List Char) : splitOnDot l ≠ [] := by
  cases l with
  | nil => simp [splitOnDot]
  | cons c rest =>
    simp only [splitOnDot]
    by_cases h : c = '.'
    · simp [h]
    · simp only [if_neg h]
      cases splitOnDot rest <;> simp

theorem splitOnDot_no_dot (l : List Char) (h : '.' ∉ l) : splitOnDot l = [l] := by
  induction l with
  | nil => rfl
  | cons c rest ih =>
    have hc : c ≠ '.' := fun he => h (he ▸ List.mem_cons_self c rest)
    have hr : '.' ∉ rest := fun hm => h (List.mem_cons_of_mem c hm)
    simp only [splitOnDot, if_neg hc, ih hr]

theorem splitOnDot_append_dot (a b : List Char) (h : '.' ∉ a) :
    splitOnDot (a ++ '.' :: b) = a :: splitOnDot b := by
  induction a with
  | nil => simp [splitOnDot]
  | cons c rest ih =>
    have hc : c ≠ '.' := fun he => h (he ▸ List.mem_cons_self c rest)
    have hr : '.' ∉ rest := fun hm => h (List.mem_cons_of_mem c hm)
    show splitOnDot (c :: (rest ++ '.' :: b)) = _
    simp only [splitOnDot, if_neg hc, List.append_eq]
    rw [ih hr]

/-- Two's-complement wrap-around of Go `int64` arithmetic. -/
def wrap64 (i : Int) : Int := (i + 2 ^ 63) % 2 ^ 64 - 2 ^ 63

theorem wrap64_eq_self (i : Int) (h1 : -(2 ^ 63) ≤ i) (h2 : i < 2 ^ 63) :
    wrap64 i = i := by
  unfold wrap64
  rw [Int.emod_eq_of_lt (by omega) (by omega)]
  omega

/-- Outcome of a Go call: a value, a non-nil `error` carrying a message,
or a runtime panic (e.g. out-of-range indexing). -/
inductive GoOut (α : Type) where
  | ok (v : α)
  | err (msg : List Char)
  | panic
  deriving DecidableEq

/-- Error text `"too many decimal points in currency value '%s'"`. -/
def tooManyDotsMsg (s : List Char) : List Char :=
  "too many decimal points in currency value '".data ++ s ++ "'".data

/-- Error text `"Couldn't parse integer part ('%s') of dollar value '%s'"`. -/
def intPartErrMsg (part s : List Char) : List Char :=
  "Couldn't parse integer part ('".data ++ part ++ "') of dollar value '".data
    ++ s ++ "'".data

/-- Error text `"Couldn't parse fractional part ('%s') of dollar value '%s'"`. -/
def fracPartErrMsg (part s : List Char) : List Char :=
  "Couldn't parse fractional part ('".data ++ part ++ "') of dollar value '".data
    ++ s ++ "'".data

/-- Tail of `CentsFromDollarString` after sign and currency-symbol handling:
split on the dot, parse dollar and cent parts, recombine.  `s` is the
original string, used only inside error messages; `str` is the remaining
text; `isNeg` records a consumed leading minus.

The source's final range check on the fractional part
(`if frac_val < 0 || frac_val > 99 { if frac_err != nil { ... } }`) is dead
code: at that point `frac_err` is always `nil` (a non-nil `frac_err`
returned earlier), so no branch of it is modelled (see the C8 analysis). -/
def centsTail (s str : List Char) (isNeg : Bool) : GoOut (Option Int) :=
  let parts := splitOnDot str
  if parts.length == 0 || parts.length > 2 then .err (tooManyDotsMsg s)
  else
    match parts with
    | [] => .err (tooManyDotsMsg s)
    | p0 :: restParts =>
      let dollarRes : Option Int := if p0 = [] then some 0 else goParseInt64 p0
      match dollarRes with
      | none => .err (intPartErrMsg p0 s)
      | some dollarVal =>
        let fracRes : Option Int :=
          match restParts with
          | [] => some 0
          | p1 :: _ => goParseInt64 p1
        match fracRes with
        | none => .err (fracPartErrMsg (restParts.headD []) s)
        | some fracVal =>
          let val := wrap64 (wrap64 (dollarVal * 100) + fracVal)
          .ok (some (if isNeg then wrap64 (-val) else val))

/-- Model of `CentsFromDollarString` (final revision of `stockdatalib`):
empty text means "no value"; an optional leading `-` is consumed; an
optional `$` is consumed ("missing dollar sign, but some data is like
this.  Continue, regardless"); the rest is dollars `.` cents.  Indexing
`str[0]` after consuming a lone `-` panics, as in Go. -/
def CentsFromDollarString (s : List Char) : GoOut (Option Int) :=
  match s with
  | [] => .ok none
  | c0 :: rest0 =>
    match (if c0 = '-' then rest0 else c0 :: rest0) with
    | [] => .panic
    | c1 :: rest1 =>
      centsTail s (if c1 = '$' then rest1 else c1 :: rest1) (c0 = '-')

example : CentsFromDollarString "$1.25".data = .ok (some 125) := by decide
example : CentsFromDollarString "1.25".data = .ok (some 125) := by decide
example : CentsFromDollarString "-$0.25".data = .ok (some (-25)) := by decide
example : CentsFromDollarString "".data = .ok none := by decide
example : CentsFromDollarString "-".data = .panic := by decide
example : CentsFromDollarString "$1.2.5".data
    = .err (tooManyDotsMsg "$1.2.5".data) := by decide
example : CentsFromDollarString "$1.250".data = .ok (some 350) := by decide

/-- Go `fmt` verb `%02d`: two-digit zero padding (values of three or more
digits print unpadded, as in Go). -/
def pad2 (m : Nat) : List Char :=
  if m < 10 then '0' :: natToDigits m else natToDigits m

/-- Model of `(c *Cents) MarshalJSON`: sign, whole dollars, dot, two-digit
cents.  The source computes the magnitudes as
`int64(math.Abs(float64(c / 100)))` and `int64(math.Abs(float64(c % 100)))`
with Go's truncating `/` and `%`; the `int64 → float64 → int64` round trip
is exact for every magnitude below `2^53` (the cents part is always below
`100`, and every value this program can produce keeps the dollar part far
below `2^53`), so the model uses the exact absolute values. -/
def CentsMarshalJSON (c : Int) : List Char :=
  (if c < 0 then ['-'] else [])
    ++ natToDigits ((Int.tdiv c 100).natAbs)
    ++ '.' :: pad2 ((Int.tmod c 100).natAbs)

/-- JSON text of a `*Cents` struct field under `encoding/json`: a nil
pointer is emitted as `null`; a non-nil pointer uses the `MarshalJSON`
method of `*Cents`. -/
def jsonPriceField : Option Int → List Char
  | none => "null".data
  | some c => CentsMarshalJSON c

/-- Body check for `twoDecimalShape`: one or more digits, a dot, then
exactly two digits. -/
def twoDecCore (r : List Char) : Bool :=
  match r.reverse with
  | b :: a :: '.' :: rest =>
    isDigitChar b && isDigitChar a && !rest.isEmpty && rest.all isDigitChar
  | _ => false

/-- Checks that a string is a decimal numeric literal with an optional
leading minus and exactly two digits after the decimal point. -/
def twoDecimalShape (l : List Char) : Bool :=
  twoDecCore (if l.head? = some '-' then l.tail else l)

example : CentsMarshalJSON 125 = "1.25".data := by decide
example : CentsMarshalJSON 80 = "0.80".data := by decide
example : CentsMarshalJSON (-25) = "-0.25".data := by decide
example : CentsMarshalJSON 0 = "0.00".data := by decide
example : twoDecimalShape "-9999.99".data = true := by decide
example : twoDecimalShape "-25".data = false := by decide

theorem natAbs_tmod_nat (a : Int) (b : Nat) :
    (Int.tmod a (b : Int)).natAbs = a.natAbs % b := by
  cases a with
  | ofNat n =>
    show (Int.tmod (Int.ofNat n) (Int.ofNat b)).natAbs = n % b
    simp [Int.tmod]
    rw [← Int.natCast_mod]
    exact Int.natAbs_ofNat _
  | negSucc n =>
    show (Int.tmod (Int.negSucc n) (Int.ofNat b)).natAbs = (n + 1) % b
    simp [Int.tmod]
    rw [show ((n : Int) + 1) = ((n + 1 : Nat) : Int) by push_cast; ring,
      ← Int.natCast_mod]
    exact Int.natAbs_ofNat _

theorem pad2_all_digits (m : Nat) : ∀ c ∈ pad2 m, isDigitChar c = true := by
  unfold pad2
  by_cases h : m < 10
  · simp only [if_pos h, List.mem_cons]
    intro c hc
    rcases hc with hc | hc
    · subst hc; decide
    · exact natToDigits_all_digits m c hc
  · simp only [if_neg h]
    exact natToDigits_all_digits m

theorem goParseInt64_pad2 (m : Nat) (h : m < 100) :
    goParseInt64 (pad2 m) = some (m : Int) := by
  interval_cases m <;> decide

/-- C2 (`parseMonetary ∘ formatMonetary = id`) key computation: parsing
the canonical dollars-dot-cents body yields `dollars * 100 + cents`. -/
theorem centsTail_format (s : List Char) (d m : Nat) (isNeg : Bool)
    (hd : (d : Int) ≤ 2 ^ 63 - 1) (hm : m < 100)
    (hval : (d : Int) * 100 + (m : Int) < 2 ^ 63) :
    centsTail s (natToDigits d ++ '.' :: pad2 m) isNeg =
      .ok (some (if isNeg then -((d : Int) * 100 + m) else (d : Int) * 100 + m)) := by
  have hnodot_d : '.' ∉ natToDigits d := fun hmem =>
    (isDigitChar_ne_signs '.' (natToDigits_all_digits d '.' hmem)).2.2.2 rfl
  have hnodot_m : '.' ∉ pad2 m := fun hmem =>
    (isDigitChar_ne_signs '.' (pad2_all_digits m '.' hmem)).2.2.2 rfl
  have hsplit : splitOnDot (natToDigits d ++ '.' :: pad2 m)
      = [natToDigits d, pad2 m] := by
    rw [splitOnDot_append_dot _ _ hnodot_d, splitOnDot_no_dot _ hnodot_m]
  unfold centsTail
  rw [hsplit]
  simp only [List.length_cons, List.length_nil, if_neg (natToDigits_ne_nil d),
    goParseInt64_natToDigits d hd, goParseInt64_pad2 m hm]
  have h1 : wrap64 ((d : Int) * 100) = (d : Int) * 100 :=
    wrap64_eq_self _ (by omega) (by omega)
  have h2 : wrap64 ((d : Int) * 100 + (m : Int)) = (d : Int) * 100 + m :=
    wrap64_eq_self _ (by omega) (by omega)
  have h3 : wrap64 (-((d : Int) * 100 + (m : Int))) = -((d : Int) * 100 + m) :=
    wrap64_eq_self _ (by omega) (by omega)
  simp only [h1, h2, h3]
  cases isNeg <;> simp

theorem CentsFromDollarString_neg_format (l : List Char) (d0 : Char)
    (rest : List Char) (hl : l = d0 :: rest) (hdol : d0 ≠ '$') :
    CentsFromDollarString ('-' :: l) = centsTail ('-' :: l) l true := by
  subst hl
  unfold CentsFromDollarString
  simp [hdol]

theorem CentsFromDollarString_pos_format (l : List Char) (d0 : Char)
    (rest : List Char) (hl : l = d0 :: rest) (hm : d0 ≠ '-') (hdol : d0 ≠ '$') :
    CentsFromDollarString l = centsTail l l false := by
  subst hl
  unfold CentsFromDollarString
  simp [hm, hdol]

theorem CentsFromDollarString_dollar_format (t : List Char) :
    CentsFromDollarString ('$' :: t) = centsTail ('$' :: t) t false := by
  unfold CentsFromDollarString
  simp

theorem CentsFromDollarString_minus_dollar_format (t : List Char) :
    CentsFromDollarString ('-' :: '$' :: t) = centsTail ('-' :: '$' :: t) t true := by
  unfold CentsFromDollarString
  simp

/-- C2: for every cents integer `c` with `-999999 ≤ c ≤ 999999`, parsing
the canonical formatted dollar string of `c` (the output of the `Cents`
JSON formatter, the only monetary formatter in the library) with
`CentsFromDollarString` yields exactly `c` back. -/
theorem C2_format_parse_roundtrip (c : Int)
    (h1 : -999999 ≤ c) (h2 : c ≤ 999999) :
    CentsFromDollarString (CentsMarshalJSON c) = .ok (some c) := by
  have hDv : (Int.tdiv c 100).natAbs = c.natAbs / 100 := by
    rw [Int.natAbs_tdiv]; rfl
  have hMv : (Int.tmod c 100).natAbs = c.natAbs % 100 :=
    natAbs_tmod_nat c 100
  set D := (Int.tdiv c 100).natAbs with hD
  set M := (Int.tmod c 100).natAbs with hM
  have hDM : D * 100 + M = c.natAbs := by rw [hDv, hMv]; omega
  have hDle : (D : Int) ≤ 2 ^ 63 - 1 := by
    have : D ≤ c.natAbs := by rw [hDv]; omega
    omega
  have hM100 : M < 100 := by rw [hMv]; omega
  have hval : (D : Int) * 100 + (M : Int) < 2 ^ 63 := by
    have : ((D * 100 + M : Nat) : Int) = (c.natAbs : Int) := by exact_mod_cast hDM
    push_cast at this
    omega
  obtain ⟨d0, drest, hdd⟩ : ∃ a b, natToDigits D = a :: b := by
    cases hh : natToDigits D with
    | nil => exact absurd hh (natToDigits_ne_nil D)
    | cons a b => exact ⟨a, b, rfl⟩
  have hdig : isDigitChar d0 = true := by
    apply natToDigits_all_digits D; rw [hdd]; exact List.mem_cons_self d0 drest
  obtain ⟨hm0, -, hdol0, -⟩ := isDigitChar_ne_signs d0 hdig
  have hbody : natToDigits D ++ '.' :: pad2 M = d0 :: (drest ++ '.' :: pad2 M) := by
    rw [hdd]; rfl
  by_cases hc : c < 0
  · have hfmt : CentsMarshalJSON c = '-' :: (natToDigits D ++ '.' :: pad2 M) := by
      unfold CentsMarshalJSON
      rw [if_pos hc, ← hD, ← hM]
      rfl
    rw [hfmt, CentsFromDollarString_neg_format _ _ _ hbody hdol0,
      centsTail_format _ _ _ _ hDle hM100 hval]
    have : -((D : Int) * 100 + M) = c := by
      have hcast : ((D * 100 + M : Nat) : Int) = (c.natAbs : Int) := by
        exact_mod_cast hDM
      push_cast at hcast
      omega
    rw [if_pos rfl, this]
  · have hfmt : CentsMarshalJSON c = natToDigits D ++ '.' :: pad2 M := by
      unfold CentsMarshalJSON
      rw [if_neg hc, ← hD, ← hM]
      rfl
    rw [hfmt, hbody, CentsFromDollarString_pos_format _ _ _ rfl hm0 hdol0, ← hbody,
      centsTail_format _ _ _ _ hDle hM100 hval]
    have : (D : Int) * 100 + M = c := by
      have hcast : ((D * 100 + M : Nat) : Int) = (c.natAbs : Int) := by
        exact_mod_cast hDM
      push_cast at hcast
      omega
    rw [if_neg (by simp), this]

/-- C2 witness: concrete instance of the round-trip at `c = -25`. -/
theorem C2_format_parse_roundtrip_witness :
    (-999999 : Int) ≤ -25 ∧ (-25 : Int) ≤ 999999 ∧
      CentsFromDollarString (CentsMarshalJSON (-25)) = .ok (some (-25)) :=
  ⟨by decide, by decide,
    C2_format_parse_roundtrip (-25) (by decide) (by decide)⟩

/-- `true` when two parser outcomes agree: both succeed with the same
cents value, both fail with some error, or both panic (error message
texts, which embed the original input string, are not compared). -/
def sameMonetaryOutcome : GoOut (Option Int) → GoOut (Option Int) → Bool
  | .ok v, .ok w => decide (v = w)
  | .err _, .err _ => true
  | .panic, .panic => true
  | _, _ => false

/-- The tail of the monetary parser depends on the original string `s`
only through error-message text. -/
theorem centsTail_msg_indep (s1 s2 t : List Char) (n : Bool) :
    sameMonetaryOutcome (centsTail s1 t n) (centsTail s2 t n) = true := by
  unfold centsTail
  by_cases hlen :
      (((splitOnDot t).length == 0 || (splitOnDot t).length > 2) = true)
  · simp only [if_pos hlen, sameMonetaryOutcome]
  · simp only [if_neg hlen]
    cases hsp : splitOnDot t with
    | nil => simp [sameMonetaryOutcome]
    | cons p0 ps =>
      cases hdr : (if p0 = [] then some (0 : Int) else goParseInt64 p0) with
      | none => simp [hdr, sameMonetaryOutcome]
      | some dv =>
        cases ps with
        | nil => simp [hdr, sameMonetaryOutcome]
        | cons p1 ps' =>
          cases hfr : goParseInt64 p1 with
          | none => simp [hdr, hfr, sameMonetaryOutcome]
          | some fv => simp [hdr, hfr, sameMonetaryOutcome]

/-- C3: the leading dollar sign is optional: for every non-empty decimal
dollar text `t` (not itself starting with a sign or currency symbol),
parsing with and without a leading `$` — in both the unsigned and the
minus-prefixed form — yields the same cents outcome, and in particular
`$1.25` and `1.25` both parse to `125` with no error. -/
theorem C3_dollar_sign_optional (t : List Char) (c0 : Char) (rest : List Char)
    (ht : t = c0 :: rest) (hm : c0 ≠ '-') (hd : c0 ≠ '$') :
    sameMonetaryOutcome (CentsFromDollarString ('$' :: t))
        (CentsFromDollarString t) = true ∧
    sameMonetaryOutcome (CentsFromDollarString ('-' :: '$' :: t))
        (CentsFromDollarString ('-' :: t)) = true ∧
    CentsFromDollarString "$1.25".data = .ok (some 125) ∧
    CentsFromDollarString "1.25".data = .ok (some 125) := by
  refine ⟨?_, ?_, by decide, by decide⟩
  · rw [CentsFromDollarString_dollar_format t,
      CentsFromDollarString_pos_format t c0 rest ht hm hd]
    exact centsTail_msg_indep _ _ t false
  · rw [CentsFromDollarString_minus_dollar_format t,
      CentsFromDollarString_neg_format t c0 rest ht hd]
    exact centsTail_msg_indep _ _ t true

/-- C3 witness: instance at `t = "1.25"`. -/
theorem C3_dollar_sign_optional_witness :
    "1.25".data = '1' :: ".25".data ∧
    sameMonetaryOutcome (CentsFromDollarString ('$' :: "1.25".data))
        (CentsFromDollarString "1.25".data) = true :=
  ⟨rfl, (C3_dollar_sign_optional "1.25".data '1' ".25".data rfl
    (by decide) (by decide)).1⟩

/-- C4: parsing the empty string yields the absent value — no cents, no
error, no panic — and the absent value serializes as JSON `null`. -/
theorem C4_empty_parses_to_absent :
    CentsFromDollarString [] = .ok none ∧ jsonPriceField none = "null".data :=
  ⟨rfl, rfl⟩

/-- C8: the fractional-range check of `CentsFromDollarString` is dead code
(`frac_err` is always `nil` when it runs), so a fractional part outside
0–99 is silently accepted and scaled into the result instead of being
rejected: `"$1.250"` parses to `350` cents and `"$9.999"` to `1899`. -/
theorem C8_fractional_range_not_enforced :
    CentsFromDollarString "$1.250".data = .ok (some 350) ∧
    CentsFromDollarString "$9.999".data = .ok (some 1899) := by decide

/-- JSON text of a modifier's `Price Cents` field under `encoding/json`:
slice elements are addressable under reflection even when the enclosing
`StockItem` is marshalled by value, so the pointer-receiver `MarshalJSON`
of `Cents` applies to the `Price` field of every `Modifier` slice element. -/
def jsonModifierPrice (c : Int) : List Char := CentsMarshalJSON c

theorem pad2_pair (m : Nat) (h : m < 100) :
    ∃ a b, pad2 m = [a, b] ∧ isDigitChar a = true ∧ isDigitChar b = true := by
  unfold pad2
  by_cases h10 : m < 10
  · refine ⟨'0', Nat.digitChar m, ?_, by decide, isDigitChar_digitChar m h10⟩
    rw [if_pos h10, natToDigits_eq, if_pos h10]
  · refine ⟨Nat.digitChar (m / 10), Nat.digitChar (m % 10), ?_, ?_, ?_⟩
    · rw [if_neg h10, natToDigits_eq, if_neg h10, natToDigits_eq,
        if_pos (by omega : m / 10 < 10)]
      rfl
    · exact isDigitChar_digitChar (m / 10) (by omega)
    · exact isDigitChar_digitChar (m % 10) (by omega)

/-- The body `dollars.cents` of a formatted monetary value passes the
two-decimal shape check. -/
theorem twoDecCore_format (d m : Nat) (hm : m < 100) :
    twoDecCore (natToDigits d ++ '.' :: pad2 m) = true := by
  obtain ⟨a, b, hab, hda, hdb⟩ := pad2_pair m hm
  unfold twoDecCore
  rw [hab]
  have : (natToDigits d ++ '.' :: [a, b]).reverse
      = b :: a :: '.' :: (natToDigits d).reverse := by
    simp
  rw [this]
  simp only [hda, hdb, Bool.true_and]
  have h1 : ((natToDigits d).reverse.isEmpty) = false := by
    cases hh : natToDigits d with
    | nil => exact absurd hh (natToDigits_ne_nil d)
    | cons x xs => simp [hh]
  have h2 : (natToDigits d).reverse.all isDigitChar = true := by
    rw [List.all_eq_true]
    intro c hc
    exact natToDigits_all_digits d c (List.mem_reverse.mp hc)
  rw [h1, h2]
  rfl

/-- C1: every serialized monetary value is a numeric literal with an
optional leading minus and exactly two decimal digits; an absent
(`nil`-pointer) price or cost is serialized as JSON `null`; no monetary
field is ever emitted as a quoted string or as the token `nil`; the
spec's examples hold, including the modifier prices, which reach the
`Cents` marshaller through addressable slice elements. -/
theorem C1_monetary_serialization :
    (∀ c : Int, twoDecimalShape (CentsMarshalJSON c) = true) ∧
    jsonPriceField none = "null".data ∧
    (∀ v : Option Int, jsonPriceField v ≠ "nil".data) ∧
    CentsMarshalJSON 125 = "1.25".data ∧
    jsonModifierPrice (-25) = "-0.25".data ∧
    jsonModifierPrice 0 = "0.00".data ∧
    jsonModifierPrice 30 = "0.30".data := by
  have hM100 : ∀ c : Int, (Int.tmod c 100).natAbs < 100 := by
    intro c
    have h := natAbs_tmod_nat c 100
    norm_cast at h
    omega
  have hshape : ∀ c : Int, twoDecimalShape (CentsMarshalJSON c) = true := by
    intro c
    obtain ⟨d0, drest, hdd⟩ :
        ∃ a b, natToDigits (Int.tdiv c 100).natAbs = a :: b := by
      cases hh : natToDigits (Int.tdiv c 100).natAbs with
      | nil => exact absurd hh (natToDigits_ne_nil _)
      | cons a b => exact ⟨a, b, rfl⟩
    have hdig : isDigitChar d0 = true := by
      apply natToDigits_all_digits _ d0; rw [hdd]
      exact List.mem_cons_self d0 drest
    obtain ⟨hm0, -, -, -⟩ := isDigitChar_ne_signs d0 hdig
    unfold CentsMarshalJSON twoDecimalShape
    by_cases hc : c < 0
    · rw [if_pos hc]
      simp only [List.cons_append, List.nil_append, List.head?_cons,
        List.tail_cons]
      rw [if_pos trivial]
      exact twoDecCore_format _ _ (hM100 c)
    · rw [if_neg hc]
      simp only [List.nil_append, hdd, List.cons_append, List.head?_cons,
        List.tail_cons]
      rw [if_neg (by simp [hm0]), ← List.cons_append, ← hdd]
      exact twoDecCore_format _ _ (hM100 c)
  refine ⟨hshape, rfl, ?_, by decide, by decide, by decide, by decide⟩
  intro v
  cases v with
  | none => decide
  | some c =>
    intro h
    have := hshape c
    rw [show CentsMarshalJSON c = jsonPriceField (some c) from rfl, h] at this
    exact absurd this (by decide)

/-- A named price adjustment (final revision: the name is a string
pointer, `nil` denoting an empty slot). -/
structure Modifier where
  Name : Option (List Char)
  Price : Int
  deriving DecidableEq

/-- Error text of `ModifierFromStrings` for a named modifier whose price
text parsed to no value. -/
def noCentsMsg (price name : List Char) : List Char :=
  "No cents found in dollar string ".data ++ price
    ++ ", for modifier ".data ++ name ++ ".  Cents are expected here.".data

/-- Model of `ModifierFromStrings` (final revision): an empty name yields
an empty `{nil, 0}` modifier with no error; otherwise the price text must
parse to a concrete cents value. -/
def ModifierFromStrings (name_str price_str : List Char) : GoOut Modifier :=
  if name_str = [] then .ok ⟨none, 0⟩
  else
    match CentsFromDollarString price_str with
    | .err m => .err m
    | .panic => .panic
    | .ok none => .err (noCentsMsg price_str name_str)
    | .ok (some c) => .ok ⟨some name_str, c⟩

/-- Model of the error text of Go `strconv.ParseInt` as propagated
unchanged by `ReadItem` for a bad item id or quantity.  The syntax and
range variants carry different texts; no claim depends on which, so both
are collapsed to the syntax form. -/
def parseIntErrMsg (s : List Char) : List Char :=
  "strconv.ParseInt: parsing \"".data ++ s ++ "\": invalid syntax".data

/-- Model of `QuantityFromString`: empty text is no quantity (and no
error); otherwise the text must parse as a 64-bit integer. -/
def QuantityFromString (s : List Char) : GoOut (Option Int) :=
  if s = [] then .ok none
  else
    match goParseInt64 s with
    | none => .err (parseIntErrMsg s)
    | some v => .ok (some v)

/-- One inventory record (final revision of `stockdatalib`). -/
structure StockItem where
  Item_id : Int
  Description : List Char
  Price : Option Int
  Cost : Option Int
  Price_type : List Char
  Quantity_on_hand : Option Int
  Modifiers : List Modifier
  deriving DecidableEq

/-- Go `%v` of a `[]string`: the elements bracketed and space-joined. -/
def goSliceV (row : List (List Char)) : List Char :=
  '[' :: joinSpace row ++ [']']
where
  joinSpace : List (List Char) → List Char
    | [] => []
    | [x] => x
    | x :: xs => x ++ ' ' :: joinSpace xs

/-- Error text of the too-few-fields check.  The source passes four
arguments to a two-verb `fmt.Sprintf`, so Go appends the surplus
arguments as `%!(EXTRA []string=..., int=...)`. -/
def tooFewFieldsMsg (n : Nat) (row : List (List Char)) : List Char :=
  "StockItem has too few fields (".data ++ natToDigits n
    ++ "); expected at least ".data ++ natToDigits 5
    ++ " (up to price_type).".data
    ++ "%!(EXTRA []string=".data ++ goSliceV row
    ++ ", int=".data ++ natToDigits n ++ ")".data

/-- Error text of the unpaired-modifier check.  The source swaps the
`Sprintf` arguments (`name, item.Item_id, i` against verbs `%d %d %s`),
so Go prints the name under `%!d(string=...)`, the item id after the
`#`, and the slot index under `%!s(int=...)`. -/
def halfModifierMsg (name : List Char) (id : Int) (i : Nat) : List Char :=
  "StockItem id %!d(string=".data ++ name
    ++ ")'s modifier #".data ++ intToChars id
    ++ " (name: %!s(int=".data ++ natToDigits i
    ++ ")) has only one of two fields present. Expected all fields, or none.".data

/-- Error text for an unrecognized `price_type` (final revision's inline
switch). -/
def invalidPriceTypeMsg (pt : List Char) : List Char :=
  "Invalid price_type value: '".data ++ pt ++ "'".data

/-- `item.Modifiers[i] = *mod`: in-range assignment, panic otherwise
(Go slice index out of range). -/
def setMod (mods : List Modifier) (i : Nat) (m : Modifier) : GoOut (List Modifier) :=
  if i < mods.length then .ok (mods.set i m) else .panic

/-- The modifier-loading loop of `ReadItem`:
`for i := 0; i <= num_modifiers; i++`, one fuel unit per iteration
(`ReadItem` passes `num_modifiers + 1`).  The conditions
`row.length < 7 + 2*i` and `row.length < 8 + 2*i` are Go's
`raw_dat_len - 1 < modifier_idx` and `raw_dat_len - 1 < modifier_idx + 1`
for `modifier_idx = 6 + 2*i`. -/
def loadMods (row : List (List Char)) (id : Int) :
    Nat → Nat → List Modifier → GoOut (List Modifier)
  | 0, _, mods => .ok mods
  | fuel + 1, i, mods =>
    if row.length < 7 + 2 * i then .ok mods
    else if row.length < 8 + 2 * i then
      .err (halfModifierMsg (row.getD (6 + 2 * i) []) id i)
    else
      match ModifierFromStrings (row.getD (6 + 2 * i) []) (row.getD (7 + 2 * i) []) with
      | .err m => .err m
      | .panic => .panic
      | .ok m =>
        match setMod mods i m with
        | .err m2 => .err m2
        | .panic => .panic
        | .ok mods2 => loadMods row id fuel (i + 1) mods2

/-- `num_modifiers`: Go computes `(len - 6) / 2` with truncating `int`
division, capped at 4; for every row that passed the minimum-field check
(`len ≥ 5`) this agrees with saturating `Nat` subtraction. -/
def numModifiers (n : Nat) : Nat := min ((n - 6) / 2) 4

/-- Model of `(item *StockItem) ReadItem` (final revision): minimum field
count, id, description, price, cost, price_type switch, optional
quantity, then the modifier loop over a freshly made slice of
`num_modifiers` zero modifiers.  Field accesses in the source are all
guarded by length checks, so `getD` agrees with Go indexing on every
reachable path. -/
def ReadItem (row : List (List Char)) : GoOut StockItem :=
  if row.length < 5 then .err (tooFewFieldsMsg row.length row)
  else
    match goParseInt64 (row.getD 0 []) with
    | none => .err (parseIntErrMsg (row.getD 0 []))
    | some id =>
      match CentsFromDollarString (row.getD 2 []) with
      | .err m => .err m
      | .panic => .panic
      | .ok price =>
        match CentsFromDollarString (row.getD 3 []) with
        | .err m => .err m
        | .panic => .panic
        | .ok cost =>
          if row.getD 4 [] = "system".data ∨ row.getD 4 [] = "open".data then
            match (if 6 ≤ row.length then QuantityFromString (row.getD 5 []) else .ok none) with
            | .err m => .err m
            | .panic => .panic
            | .ok qty =>
              match loadMods row id (numModifiers row.length + 1) 0
                  (List.replicate (numModifiers row.length) ⟨none, 0⟩) with
              | .err m => .err m
              | .panic => .panic
              | .ok mods =>
                .ok ⟨id, row.getD 1 [], price, cost, row.getD 4 [], qty, mods⟩
          else .err (invalidPriceTypeMsg (row.getD 4 []))

/-- The canonical data row of the repository's unit tests. -/
def coffeeRow : List (List Char) :=
  ["111010".data, "Coffee".data, "$1.25".data, "$0.80".data, "system".data,
    "100000".data, "Small".data, "-$0.25".data, "Medium".data, "$0.00".data,
    "Large".data, "$0.30".data]

/-- The decoded value of `coffeeRow`. -/
def coffeeItem : StockItem :=
  ⟨111010, "Coffee".data, some 125, some 80, "system".data, some 100000,
    [⟨some "Small".data, -25⟩, ⟨some "Medium".data, 0⟩, ⟨some "Large".data, 30⟩]⟩

example : ReadItem coffeeRow = .ok coffeeItem := by decide
example : ReadItem ["1".data, "d".data, "$1.00".data, "$2.00".data, "open".data]
    = .ok ⟨1, "d".data, some 100, some 200, "open".data, none, []⟩ := by decide

/-- C6: a data row with fewer than 5 fields is rejected with a structural
error whose text names the actual field count and the minimum expected
count of 5 (no crash, no success); a row of exactly 5 fields (through
`price_type`) is not rejected for the missing `quantity_on_hand` field. -/
theorem C6_min_field_count :
    (∀ row : List (List Char), row.length < 5 →
      ReadItem row = .err (tooFewFieldsMsg row.length row) ∧
      List.IsInfix (natToDigits row.length) (tooFewFieldsMsg row.length row) ∧
      List.IsInfix (natToDigits 5) (tooFewFieldsMsg row.length row)) ∧
    ReadItem ["1".data, "d".data, "$1.00".data, "$2.00".data, "system".data]
      = .ok ⟨1, "d".data, some 100, some 200, "system".data, none, []⟩ := by
  constructor
  · intro row h
    refine ⟨?_, ?_, ?_⟩
    · unfold ReadItem
      rw [if_pos h]
    · have hmsg : tooFewFieldsMsg row.length row
          = "StockItem has too few fields (".data
            ++ (natToDigits row.length
            ++ ("); expected at least ".data ++ (natToDigits 5
            ++ (" (up to price_type).".data ++ ("%!(EXTRA []string=".data
            ++ (goSliceV row ++ (", int=".data
            ++ (natToDigits row.length ++ ")".data)))))))) := by
        simp [tooFewFieldsMsg, List.append_assoc]
      rw [hmsg]
      exact List.infix_append' _ _ _
    · have hmsg : tooFewFieldsMsg row.length row
          = ("StockItem has too few fields (".data ++ natToDigits row.length
            ++ "); expected at least ".data)
            ++ (natToDigits 5
            ++ (" (up to price_type).".data ++ ("%!(EXTRA []string=".data
            ++ (goSliceV row ++ (", int=".data
            ++ (natToDigits row.length ++ ")".data)))))) := by
        simp [tooFewFieldsMsg, List.append_assoc]
      rw [hmsg]
      exact List.infix_append' _ _ _
  · decide

/-- C6 witness: a one-field row is rejected naming counts 1 and 5. -/
theorem C6_min_field_count_witness :
    (["1".data] : List (List Char)).length < 5 ∧
    ReadItem ["1".data]
      = .err (tooFewFieldsMsg (["1".data] : List (List Char)).length ["1".data]) :=
  ⟨by decide, (C6_min_field_count.1 ["1".data] (by decide)).1⟩

theorem loadMods_break (row : List (List Char)) (id : Int) (fuel i : Nat)
    (mods : List Modifier) (h : row.length < 7 + 2 * i) :
    loadMods row id (fuel + 1) i mods = .ok mods := by
  unfold loadMods
  rw [if_pos h]

theorem loadMods_half (row : List (List Char)) (id : Int) (fuel i : Nat)
    (mods : List Modifier) (h1 : ¬row.length < 7 + 2 * i)
    (h2 : row.length < 8 + 2 * i) :
    loadMods row id (fuel + 1) i mods
      = .err (halfModifierMsg (row.getD (6 + 2 * i) []) id i) := by
  unfold loadMods
  rw [if_neg h1, if_pos h2]

theorem loadMods_step (row : List (List Char)) (id : Int) (fuel i : Nat)
    (mods : List Modifier) (m : Modifier) (h2 : 8 + 2 * i ≤ row.length)
    (hm : ModifierFromStrings (row.getD (6 + 2 * i) []) (row.getD (7 + 2 * i) [])
      = .ok m)
    (hlen : i < mods.length) :
    loadMods row id (fuel + 1) i mods
      = loadMods row id fuel (i + 1) (mods.set i m) := by
  conv_lhs => rw [loadMods]
  rw [if_neg (by omega), if_neg (by omega), hm]
  show (match (if i < mods.length then GoOut.ok (mods.set i m) else GoOut.panic) with
    | GoOut.err m2 => GoOut.err m2
    | GoOut.panic => GoOut.panic
    | GoOut.ok mods2 => loadMods row id fuel (i + 1) mods2) = _
  rw [if_pos hlen]

/-- On a row whose length is `7 + 2k` (a modifier name with no paired
price field), the loop reaches slot `k` and reports the unpaired-field
error, provided the earlier pairs parse. -/
theorem loadMods_run_err (row : List (List Char)) (id : Int) (k : Nat)
    (hlen : row.length = 7 + 2 * k) :
    ∀ (d j : Nat) (mods : List Modifier), j + d = k → mods.length = k →
    (∀ jj, j ≤ jj → jj < k →
      ∃ m, ModifierFromStrings (row.getD (6 + 2 * jj) [])
        (row.getD (7 + 2 * jj) []) = .ok m) →
    loadMods row id (d + 1) j mods
      = .err (halfModifierMsg (row.getD (6 + 2 * k) []) id k) := by
  intro d
  induction d with
  | zero =>
    intro j mods hjd hml hpairs
    have hj : j = k := by omega
    subst hj
    exact loadMods_half _ _ _ _ _ (by omega) (by omega)
  | succ d ih =>
    intro j mods hjd hml hpairs
    obtain ⟨m, hm⟩ := hpairs j (Nat.le_refl j) (by omega)
    rw [loadMods_step _ _ _ _ _ m (by omega) hm (by omega)]
    exact ih (j + 1) _ (by omega) (by simp [hml])
      (fun jj h1 h2 => hpairs jj (by omega) h2)

/-- On a row whose length is `6 + 2k` (complete pairs only), the loop
stops cleanly at slot `k` and succeeds, provided the pairs parse. -/
theorem loadMods_run_ok (row : List (List Char)) (id : Int) (k : Nat)
    (hlen : row.length = 6 + 2 * k) :
    ∀ (d j : Nat) (mods : List Modifier), j + d = k → mods.length = k →
    (∀ jj, j ≤ jj → jj < k →
      ∃ m, ModifierFromStrings (row.getD (6 + 2 * jj) [])
        (row.getD (7 + 2 * jj) []) = .ok m) →
    ∃ mods', loadMods row id (d + 1) j mods = .ok mods' ∧ mods'.length = k := by
  intro d
  induction d with
  | zero =>
    intro j mods hjd hml hpairs
    have hj : j = k := by omega
    subst hj
    exact ⟨mods, loadMods_break _ _ _ _ _ (by omega), hml⟩
  | succ d ih =>
    intro j mods hjd hml hpairs
    obtain ⟨m, hm⟩ := hpairs j (Nat.le_refl j) (by omega)
    rw [loadMods_step _ _ _ _ _ m (by omega) hm (by omega)]
    exact ih (j + 1) _ (by omega) (by simp [hml])
      (fun jj h1 h2 => hpairs jj (by omega) h2)

/-- Reduction of `ReadItem` through its base fields, given that each of
them parses. -/
theorem ReadItem_reduce (row : List (List Char)) (id : Int)
    (price cost qty : Option Int)
    (hlen5 : ¬row.length < 5) (h6 : 6 ≤ row.length)
    (hid : goParseInt64 (row.getD 0 []) = some id)
    (hprice : CentsFromDollarString (row.getD 2 []) = .ok price)
    (hcost : CentsFromDollarString (row.getD 3 []) = .ok cost)
    (hpt : row.getD 4 [] = "system".data ∨ row.getD 4 [] = "open".data)
    (hqty : QuantityFromString (row.getD 5 []) = .ok qty) :
    ReadItem row =
      match loadMods row id (numModifiers row.length + 1) 0
          (List.replicate (numModifiers row.length) ⟨none, 0⟩) with
      | .err m => .err m
      | .panic => .panic
      | .ok mods =>
        .ok ⟨id, row.getD 1 [], price, cost, row.getD 4 [], qty, mods⟩ := by
  unfold ReadItem
  rw [if_neg hlen5, hid]
  show (match CentsFromDollarString (row.getD 2 []) with
    | GoOut.err m => GoOut.err m
    | GoOut.panic => GoOut.panic
    | GoOut.ok price => _) = _
  rw [hprice]
  show (match CentsFromDollarString (row.getD 3 []) with
    | GoOut.err m => GoOut.err m
    | GoOut.panic => GoOut.panic
    | GoOut.ok cost => _) = _
  rw [hcost]
  show (if row.getD 4 [] = "system".data ∨ row.getD 4 [] = "open".data
    then _ else GoOut.err (invalidPriceTypeMsg (row.getD 4 []))) = _
  rw [if_pos hpt, if_pos h6, hqty]

/-- C7: taking the modifier slots of a row in order (the base fields all
parsing): a slot whose name field is present but whose paired price field
is absent (row length `7 + 2k`) makes decoding fail with a structural
error whose text contains the decimal item id and the decimal slot index
(the source swaps the `Sprintf` arguments, so the two values appear under
each other's labels, but both are in the message); a slot with neither
field present (row length `6 + 2k`) stops the loop and decoding succeeds
with exactly `k` modifiers and no error. -/
theorem C7_modifier_pairing (row : List (List Char)) (k : Nat) (id : Int)
    (price cost qty : Option Int) (hk : k ≤ 4)
    (hid : goParseInt64 (row.getD 0 []) = some id)
    (hprice : CentsFromDollarString (row.getD 2 []) = .ok price)
    (hcost : CentsFromDollarString (row.getD 3 []) = .ok cost)
    (hpt : row.getD 4 [] = "system".data ∨ row.getD 4 [] = "open".data)
    (hqty : QuantityFromString (row.getD 5 []) = .ok qty)
    (hpairs : ∀ jj, jj < k →
      ∃ m, ModifierFromStrings (row.getD (6 + 2 * jj) [])
        (row.getD (7 + 2 * jj) []) = .ok m) :
    (row.length = 7 + 2 * k →
      ReadItem row = .err (halfModifierMsg (row.getD (6 + 2 * k) []) id k) ∧
      List.IsInfix (intToChars id)
        (halfModifierMsg (row.getD (6 + 2 * k) []) id k) ∧
      List.IsInfix (natToDigits k)
        (halfModifierMsg (row.getD (6 + 2 * k) []) id k)) ∧
    (row.length = 6 + 2 * k →
      ∃ item, ReadItem row = .ok item ∧ item.Modifiers.length = k) := by
  have hinfix_id : List.IsInfix (intToChars id)
      (halfModifierMsg (row.getD (6 + 2 * k) []) id k) := by
    have hmsg : halfModifierMsg (row.getD (6 + 2 * k) []) id k
        = ("StockItem id %!d(string=".data ++ row.getD (6 + 2 * k) []
          ++ ")'s modifier #".data)
          ++ (intToChars id ++ (" (name: %!s(int=".data ++ (natToDigits k
          ++ ")) has only one of two fields present. Expected all fields, or none.".data))) := by
      simp [halfModifierMsg, List.append_assoc]
    rw [hmsg]
    exact List.infix_append' _ _ _
  have hinfix_k : List.IsInfix (natToDigits k)
      (halfModifierMsg (row.getD (6 + 2 * k) []) id k) := by
    have hmsg : halfModifierMsg (row.getD (6 + 2 * k) []) id k
        = ("StockItem id %!d(string=".data ++ row.getD (6 + 2 * k) []
          ++ ")'s modifier #".data ++ intToChars id ++ " (name: %!s(int=".data)
          ++ (natToDigits k
          ++ ")) has only one of two fields present. Expected all fields, or none.".data) := by
      simp [halfModifierMsg, List.append_assoc]
    rw [hmsg]
    exact List.infix_append' _ _ _
  constructor
  · intro hlen
    have hnm : numModifiers row.length = k := by
      have h2 : (row.length - 6) / 2 = k := by omega
      unfold numModifiers
      rw [h2]
      exact Nat.min_eq_left hk
    have hred := ReadItem_reduce row id price cost qty (by omega) (by omega)
      hid hprice hcost hpt hqty
    rw [hred, hnm]
    rw [loadMods_run_err row id k hlen k 0 _ (by omega)
      (List.length_replicate k _) (fun jj h1 h2 => hpairs jj h2)]
    exact ⟨rfl, hinfix_id, hinfix_k⟩
  · intro hlen
    have hnm : numModifiers row.length = k := by
      have h2 : (row.length - 6) / 2 = k := by omega
      unfold numModifiers
      rw [h2]
      exact Nat.min_eq_left hk
    have hred := ReadItem_reduce row id price cost qty (by omega) (by omega)
      hid hprice hcost hpt hqty
    obtain ⟨mods', hok, hml⟩ := loadMods_run_ok row id k hlen k 0
      (List.replicate k ⟨none, 0⟩) (by omega) (List.length_replicate k _)
      (fun jj h1 h2 => hpairs jj h2)
    rw [hred, hnm, hok]
    exact ⟨⟨id, row.getD 1 [], price, cost, row.getD 4 [], qty, mods'⟩, rfl, hml⟩

/-- C7 witness: a 7-field row (name `Small` with no price field) errors
with id 1 and slot 0 in the message; an 8-field row with one complete
pair decodes with exactly one modifier. -/
theorem C7_modifier_pairing_witness :
    (ReadItem ["1".data, "d".data, "$1.00".data, "$2.00".data, "system".data,
        "3".data, "Small".data]
      = .err (halfModifierMsg ("Small".data) 1 0)) ∧
    (∃ item, ReadItem ["1".data, "d".data, "$1.00".data, "$2.00".data,
        "system".data, "3".data, "Small".data, "-$0.25".data]
      = .ok item ∧ item.Modifiers.length = 1) := by
  constructor
  · exact ((C7_modifier_pairing
      ["1".data, "d".data, "$1.00".data, "$2.00".data, "system".data,
        "3".data, "Small".data] 0 1 (some 100) (some 200) (some 3)
      (by decide) (by decide) (by decide) (by decide) (by decide) (by decide)
      (fun jj h => absurd h (by omega))).1 (by decide)).1
  · exact (C7_modifier_pairing
      ["1".data, "d".data, "$1.00".data, "$2.00".data, "system".data,
        "3".data, "Small".data, "-$0.25".data] 1 1 (some 100) (some 200) (some 3)
      (by decide) (by decide) (by decide) (by decide) (by decide) (by decide)
      (fun jj h => by
        have hj : jj = 0 := by omega
        subst hj
        exact ⟨⟨some ("Small".data), -25⟩, by decide⟩)).2 (by decide)

/-- Invariant of the modifier loop: when it succeeds, the slice keeps its
length, and every slot whose name field in the row is empty still holds
the zero modifier `{nil, 0}` (empty names produce `{nil, 0}` via
`ModifierFromStrings`, and untouched slots keep their initial value). -/
theorem loadMods_ok_inv (row : List (List Char)) (id : Int) :
    ∀ (fuel j : Nat) (mods mods' : List Modifier),
    loadMods row id fuel j mods = .ok mods' →
    (∀ i, i < mods.length → row.getD (6 + 2 * i) [] = [] →
      mods.getD i ⟨none, 0⟩ = ⟨none, 0⟩) →
    mods'.length = mods.length ∧
    (∀ i, i < mods'.length → row.getD (6 + 2 * i) [] = [] →
      mods'.getD i ⟨none, 0⟩ = ⟨none, 0⟩) := by
  intro fuel
  induction fuel with
  | zero =>
    intro j mods mods' h hP
    unfold loadMods at h
    cases h
    exact ⟨rfl, hP⟩
  | succ fuel ih =>
    intro j mods mods' h hP
    unfold loadMods at h
    by_cases h1 : row.length < 7 + 2 * j
    · rw [if_pos h1] at h
      cases h
      exact ⟨rfl, hP⟩
    · rw [if_neg h1] at h
      by_cases h2 : row.length < 8 + 2 * j
      · rw [if_pos h2] at h
        cases h
      · rw [if_neg h2] at h
        cases hm : ModifierFromStrings (row.getD (6 + 2 * j) [])
            (row.getD (7 + 2 * j) []) with
        | err m => rw [hm] at h; cases h
        | panic => rw [hm] at h; cases h
        | ok m =>
          rw [hm] at h
          have h' : (match setMod mods j m with
              | GoOut.err m2 => GoOut.err m2
              | GoOut.panic => GoOut.panic
              | GoOut.ok mods2 => loadMods row id fuel (j + 1) mods2)
              = GoOut.ok mods' := h
          by_cases hj : j < mods.length
          · rw [show setMod mods j m = .ok (mods.set j m) by
              unfold setMod; rw [if_pos hj]] at h'
            obtain ⟨hlen', hP'⟩ := ih (j + 1) (mods.set j m) mods' h' (by
              intro i hi hname
              by_cases hij : i = j
              · subst hij
                have hmz : m = ⟨none, 0⟩ := by
                  rw [hname] at hm
                  unfold ModifierFromStrings at hm
                  rw [if_pos rfl] at hm
                  cases hm
                  rfl
                simp only [List.getD, List.get?_eq_getElem?,
                  List.getElem?_set_self (by
                    rw [List.length_set] at hi; exact hi), hmz]
                rfl
              · rw [List.length_set] at hi
                simp only [List.getD, List.get?_eq_getElem?,
                  List.getElem?_set_ne (Ne.symm hij)]
                have := hP i hi hname
                simp only [List.getD, List.get?_eq_getElem?] at this
                exact this)
            rw [List.length_set] at hlen'
            exact ⟨hlen', hP'⟩
          · rw [show setMod mods j m = .panic by
              unfold setMod; rw [if_neg hj]] at h'
            cases h'

/-- C10 counterexample: the canonical schema-valid 12-field row decodes
successfully to a `StockItem` whose modifier collection has length 3 —
not a fixed-size array of exactly 4 slots. -/
theorem C10_not_fixed_four :
    ReadItem coffeeRow = .ok coffeeItem ∧
    coffeeItem.Modifiers.length = 3 ∧ coffeeItem.Modifiers.length ≠ 4 := by
  decide

/-- C10 (amended): every `StockItem` decoded from a schema-valid 12-field
row carries a slice of exactly 3 modifier slots (one per name/price pair
of the row, `(12-6)/2`); slots whose name field is empty remain
zero-valued modifiers with a `none` name and a price of 0, and are part
of the value handed to the serializer. -/
theorem C10_modifier_slice (row : List (List Char)) (item : StockItem)
    (hlen : row.length = 12) (hok : ReadItem row = .ok item) :
    item.Modifiers.length = 3 ∧
    (∀ j, j < 3 → row.getD (6 + 2 * j) [] = [] →
      item.Modifiers.getD j ⟨none, 0⟩ = ⟨none, 0⟩) := by
  have hnm : numModifiers row.length = 3 := by rw [hlen]; decide
  unfold ReadItem at hok
  rw [if_neg (by omega), hnm] at hok
  split at hok
  · cases hok
  split at hok
  · cases hok
  · cases hok
  split at hok
  · cases hok
  · cases hok
  split at hok
  case isFalse => cases hok
  split at hok
  · cases hok
  · cases hok
  rename_i qty hqty
  split at hok
  · cases hok
  · cases hok
  rename_i mods hmods
  cases hok
  obtain ⟨hlen', hP⟩ := loadMods_ok_inv row _ _ 0 _ mods hmods (by
    intro i hi hname
    simp only [List.getD, List.get?_eq_getElem?,
      List.getElem?_replicate_of_lt (by simpa using hi)]
    rfl)
  rw [List.length_replicate] at hlen'
  exact ⟨hlen', fun j hj hname => hP j (by omega) hname⟩

/-- C10 witness for the amended statement: instance at the canonical row. -/
theorem C10_modifier_slice_witness :
    coffeeItem.Modifiers.length = 3 :=
  (C10_modifier_slice coffeeRow coffeeItem (by decide) (by decide)).1

/-- The expected header of a stock-items CSV file, in order. -/
def expected_fields : List (List Char) :=
  ["item id".data, "description".data, "price".data, "cost".data,
    "price_type".data, "quantity_on_hand".data, "modifier_1_name".data,
    "modifier_1_price".data, "modifier_2_name".data, "modifier_2_price".data,
    "modifier_3_name".data, "modifier_3_price".data]

/-- Error text of the header field-count check.  The source formats the
expected count (an `int`) with verb `%s`, which Go prints as
`%!s(int=12)`. -/
def headerCountMsg (nf : Nat) : List Char :=
  "Expected %!s(int=".data ++ natToDigits 12
    ++ ") columns/fields in CSV file.  Saw ".data ++ natToDigits nf
    ++ " fields on the first line.".data

/-- Error text of a header name mismatch.  The source declares
`var last_field *string = nil` and never assigns it, so the branch that
would also name the preceding expected field is dead and every mismatch
— at any position — produces this "first field" form. -/
def headerMismatchMsg (expected got : List Char) : List Char :=
  "CSV file's fields don't match the expected format.  Expected the first field to be ".data
    ++ expected ++ " but got ".data ++ got

/-- The position-by-position comparison loop of `VerifyCsvFields`. -/
def checkFields : List (List Char) → List (List Char) → Option (List Char)
  | e :: es, r :: rs =>
    if e = r then checkFields es rs else some (headerMismatchMsg e r)
  | _, _ => none

/-- Model of `VerifyCsvFields` (row already tokenized): `none` means the
header is accepted, `some msg` is the error. -/
def VerifyCsvFields (row : List (List Char)) : Option (List Char) :=
  if row.length ≠ 12 then some (headerCountMsg row.length)
  else checkFields expected_fields row

example : VerifyCsvFields expected_fields = none := by decide

set_option maxRecDepth 10000 in
/-- C9: on a header whose name at position 1 differs (position 0
matching), verification fails, but the message is the "first field" form
naming only the expected name and the offending value — it does not
contain the preceding expected field name `item id`, because
`last_field` is never assigned; a mismatch at position 0 produces the
same form, which for that position is as the claim describes. -/
theorem C9_header_mismatch_message :
    VerifyCsvFields ["item id".data, "desc".data, "price".data, "cost".data,
        "price_type".data, "quantity_on_hand".data, "modifier_1_name".data,
        "modifier_1_price".data, "modifier_2_name".data, "modifier_2_price".data,
        "modifier_3_name".data, "modifier_3_price".data]
      = some (headerMismatchMsg ("description".data) ("desc".data)) ∧
    ¬ List.IsInfix ("item id".data)
        (headerMismatchMsg ("description".data) ("desc".data)) ∧
    VerifyCsvFields ["wrong".data, "description".data, "price".data, "cost".data,
        "price_type".data, "quantity_on_hand".data, "modifier_1_name".data,
        "modifier_1_price".data, "modifier_2_name".data, "modifier_2_price".data,
        "modifier_3_name".data, "modifier_3_price".data]
      = some (headerMismatchMsg ("item id".data) ("wrong".data)) := by
  refine ⟨by decide, ?_, by decide⟩
  decide

/-- `dstFp.WriteString("[\n    ")` at the start of the output. -/
def jsonArrayOpen : List Char := "[\n    ".data

/-- `dstFp.WriteString(",\n    ")`, the record separator. -/
def jsonArraySep : List Char := ",\n    ".data

/-- `dstFp.WriteString("\n]\n")` at the end of the output. -/
def jsonArrayClose : List Char := "\n]\n".data

/-- The per-record writes of `doConversion`'s loop: each serialized
record is written first, and only then, when `at_least_one_item_written`
is already set, the separator. -/
def writeItems : List (List Char) → Bool → List Char
  | [], _ => []
  | r :: rs, flag => r ++ (if flag then jsonArraySep else []) ++ writeItems rs true

/-- The full byte sequence `doConversion` writes for a run whose records
serialize to `recs` (header validated, all records decoded). -/
def doConversionOutput (recs : List (List Char)) : List Char :=
  jsonArrayOpen ++ writeItems recs false ++ jsonArrayClose

/-- C5: the driver writes each record before consulting the separator
flag, so a two-record run has no separator between the first and second
records and a dangling separator after the last one — not a well-formed
JSON array; zero-record and one-record runs are well-formed (the
header-only case produces an empty JSON array as the claim says). -/
theorem C5_separator_after_record :
    doConversionOutput [] = "[\n    \n]\n".data ∧
    doConversionOutput ["recA".data]
      = jsonArrayOpen ++ "recA".data ++ jsonArrayClose ∧
    doConversionOutput ["recA".data, "recB".data]
      = jsonArrayOpen ++ "recA".data ++ "recB".data
        ++ jsonArraySep ++ jsonArrayClose := by
  refine ⟨by decide, by decide, by decide⟩
